import Mathlib

/-!
# Verification of the feed-watcher loading/caching core

A shallow embedding of the feed-watcher post-loading core:
`mdx-parser` (HTML-entity decoding, front-matter validation, content
preview, attachment parsing, filename timestamps), the pagination/sort
algorithm of `GitHubAPI.getPosts` / `PostLoader.getLocalPosts`, the
rate-limit gate of `GitHubAPI.makeRequest`, the `PersistentCache`
key/value store, and the configuration save path.

Strings are modelled as Lean `String`/`List Char` (Unicode scalar
values).  Where the source relies on JavaScript specifics, the
modelling decision is recorded at the definition:
* regex `replace` with a global flag scans left to right, consumes each
  match, and on failure advances one position;
* `Array.prototype.sort` is modelled by a stable insertion sort; the
  ECMAScript `SortCompare` operation maps a `NaN` comparator result to
  `±0`, and for a consistent comparator every stable spec-compliant
  sort produces the same output;
* `localeCompare` is modelled as code-point comparison (the two agree
  on the ASCII filenames the comparator is applied to);
* `Date` construction from an ISO `YYYY-MM-DDTHH:MM:SSZ` string yields
  an *Invalid Date* (a truthy object whose `getTime()` is `NaN`) when a
  field is out of range, and otherwise a time value that is an affine
  function of the (year, month, day, hour, minute, second) tuple.
-/

namespace FeedWatcher

/-! ## HTML entity decoding (`mdx-parser.ts`, `decodeHtmlEntities`) -/

/-- The fixed entity table `htmlEntities` of `decodeHtmlEntities`. -/
def htmlEntities : List (String × String) :=
  [("&amp;", "&"), ("&lt;", "<"), ("&gt;", ">"), ("&quot;", "\""),
   ("&#39;", "'"), ("&apos;", "'"), ("&nbsp;", " "),
   ("&aacute;", "á"), ("&agrave;", "à"), ("&atilde;", "ã"), ("&acirc;", "â"),
   ("&eacute;", "é"), ("&egrave;", "è"), ("&etilde;", "ẽ"), ("&ecirc;", "ê"),
   ("&iacute;", "í"), ("&igrave;", "ì"), ("&itilde;", "ĩ"),
   ("&oacute;", "ó"), ("&ograve;", "ò"), ("&otilde;", "õ"), ("&ocirc;", "ô"),
   ("&uacute;", "ú"), ("&ugrave;", "ù"), ("&utilde;", "ũ"),
   ("&yacute;", "ý"), ("&ygrave;", "ỳ"), ("&ytilde;", "ỹ")]

/-- `htmlEntities[entity] || entity` (no table value is falsy). -/
def lookupEntity (ent : String) : String :=
  match htmlEntities.find? (fun kv => kv.1 == ent) with
  | some kv => kv.2
  | none => ent

/-- The character class `[a-zA-Z0-9#]` of the entity regex (ASCII only). -/
def isEntityChar (c : Char) : Bool :=
  c.isAlpha || c.isDigit || c == '#'

/-- `text.replace(/&[a-zA-Z0-9#]+;/g, e => htmlEntities[e] || e)`: a match
starts at `'&'`, takes a maximal nonempty run of entity characters, and
requires `';'` right after it (a shorter run would be followed by another
entity character, so greedy matching with backtracking accepts exactly this);
the replacement is not rescanned and scanning resumes after the match.
The `fuel` argument only makes the recursion structural; every step
consumes at least one character, so any `fuel ≥ l.length` computes the
full scan. -/
def decodeHtmlAux : Nat → List Char → List Char
  | 0, l => l
  | _ + 1, [] => []
  | fuel + 1, '&' :: rest =>
    let run := rest.takeWhile isEntityChar
    match rest.dropWhile isEntityChar with
    | ';' :: tail =>
      if run.isEmpty then '&' :: decodeHtmlAux fuel rest
      else (lookupEntity (String.mk ('&' :: (run ++ [';'])))).data ++ decodeHtmlAux fuel tail
    | _ => '&' :: decodeHtmlAux fuel rest
  | fuel + 1, c :: rest => c :: decodeHtmlAux fuel rest

/-- `decodeHtmlEntities` of `mdx-parser.ts`. -/
def decodeHtmlEntities (text : String) : String :=
  String.mk (decodeHtmlAux text.data.length text.data)

/-! ## Filename timestamps (`mdx-parser.ts`, `extractDateFromFileName`) -/

def digitVal (c : Char) : Nat := c.toNat - '0'.toNat

def dec2 (a b : Char) : Nat := 10 * digitVal a + digitVal b

def dec4 (a b c d : Char) : Nat := 100 * dec2 a b + dec2 c d

/-- Proleptic-Gregorian leap-year rule (as used by ECMAScript dates). -/
def isLeapYear (y : Nat) : Bool :=
  (y % 4 == 0 && y % 100 != 0) || y % 400 == 0

def daysInMonth (y m : Nat) : Nat :=
  if m == 2 then (if isLeapYear y then 29 else 28)
  else if m == 4 || m == 6 || m == 9 || m == 11 then 30
  else 31

/-- Days contributed by the months `1, …, m-1` of year `y`. -/
def daysBeforeMonth (y m : Nat) : Nat :=
  (List.range (m - 1)).foldl (fun acc i => acc + daysInMonth y (i + 1)) 0

/-- Number of leap years among `0, …, y-1` (year 0 is a leap year). -/
def leapYearsBefore (y : Nat) : Nat :=
  if y == 0 then 0 else 1 + (y - 1) / 4 - (y - 1) / 100 + (y - 1) / 400

/-- Day count of the proleptic-Gregorian date `y-m-d` from `0000-01-01`. -/
def dayNumber (y m d : Nat) : Nat :=
  365 * y + leapYearsBefore y + daysBeforeMonth y m + (d - 1)

/-- The time value of `y-m-dTh:mi:sZ` in milliseconds counted from
`0000-01-01T00:00:00Z`.  ECMAScript time values count from the Unix epoch
instead; the two differ by a fixed constant, so all comparisons and
differences of time values — the only uses below — agree. -/
def utcMillis (y m d h mi s : Nat) : Nat :=
  (((dayNumber y m d * 24 + h) * 60 + mi) * 60 + s) * 1000

/-- Field-range validity of an ECMAScript date-time string
`YYYY-MM-DDTHH:MM:SSZ`: months `01`–`12`, days bounded by the month's
length, and either a time of day with `HH ≤ 23` or the special `24:00:00`
end-of-day form.  Out-of-range fields give an *Invalid Date*. -/
def validDateFields (y m d h mi s : Nat) : Bool :=
  1 ≤ m && m ≤ 12 && 1 ≤ d && d ≤ daysInMonth y m &&
    ((h ≤ 23 && mi ≤ 59 && s ≤ 59) || (h == 24 && mi == 0 && s == 0))

/-- `new Date(`${y}-${m}-${d}T${h}:${mi}:${s}Z`)`: `some t` is a valid
`Date` with time value `t`, `none` is an *Invalid Date* (still a truthy
object in JavaScript). -/
def mkUTCDate (y m d h mi s : Nat) : Option Nat :=
  if validDateFields y m d h mi s then some (utcMillis y m d h mi s) else none

/-- `extractDateFromFileName` of `mdx-parser.ts`: match the anchored prefix
regex `^(\d{4})-(\d{2})-(\d{2})_(\d{2})-(\d{2})-(\d{2})` and build a UTC
`Date` from the captured fields.  The outer `Option` is the `Date | null`
of the source (`none` = regex failure = `null`); the inner `Option` is
validity of the constructed `Date` (`some none` = *Invalid Date*). -/
def extractDateFromFileName (name : String) : Option (Option Nat) :=
  match name.data with
  | y1 :: y2 :: y3 :: y4 :: '-' :: a1 :: a2 :: '-' :: b1 :: b2 :: '_' ::
      c1 :: c2 :: '-' :: e1 :: e2 :: '-' :: f1 :: f2 :: _ =>
    if [y1, y2, y3, y4, a1, a2, b1, b2, c1, c2, e1, e2, f1, f2].all Char.isDigit then
      some (mkUTCDate (dec4 y1 y2 y3 y4) (dec2 a1 a2) (dec2 b1 b2)
        (dec2 c1 c2) (dec2 e1 e2) (dec2 f1 f2))
    else none
  | _ => none

/-! ## File listing, sort comparator and pagination (`github-api.ts`) -/

/-- A GitHub contents-listing entry (the fields `getPosts` reads). The
source's field `type` is rendered `ftype`. -/
structure GitHubFile where
  name : String
  path : String
  ftype : String
deriving DecidableEq

/-- Strict lexicographic order on character lists by code point. -/
def lexLt : List Char → List Char → Bool
  | [], [] => false
  | [], _ :: _ => true
  | _ :: _, [] => false
  | a :: as, b :: bs =>
    if a.toNat < b.toNat then true
    else if b.toNat < a.toNat then false
    else lexLt as bs

/-- Sign of `b.localeCompare(a)`, modelled as code-point comparison (the
default-locale collation agrees with it on the ASCII filenames compared
here). -/
def compareNamesDesc (a b : String) : Int :=
  if lexLt b.data a.data then -1 else if lexLt a.data b.data then 1 else 0

/-- The sort comparator of `getPosts` (`github-api.ts` lines 163–170):
`dateB.getTime() - dateA.getTime()` when both `extractDateFromFileName`
results are truthy, else `b.name.localeCompare(a.name)`.  A JavaScript
`Date` object is truthy even when it is an *Invalid Date*, so the
timestamp branch is taken whenever both names match the regex;
`getTime()` of an *Invalid Date* is `NaN`, and the ECMAScript
`SortCompare` operation maps a `NaN` comparator result to `±0`. -/
def postComparator (a b : GitHubFile) : Int :=
  match extractDateFromFileName a.name, extractDateFromFileName b.name with
  | some da, some db =>
    match da, db with
    | some ta, some tb => (tb : Int) - (ta : Int)
    | _, _ => 0
  | _, _ => compareNamesDesc a.name b.name

/-- `postComparator a b ≤ 0`: `a` need not be placed after `b`. -/
def fileLE (a b : GitHubFile) : Prop := postComparator a b ≤ 0

instance : DecidableRel fileLE :=
  fun a b => inferInstanceAs (Decidable (postComparator a b ≤ 0))

/-- The `.sort(...)` call of `getPosts`, modelled as a stable insertion
sort (ECMAScript guarantees a stable sort; for a consistent comparator
all stable sorts coincide). -/
def sortFiles (l : List GitHubFile) : List GitHubFile :=
  l.insertionSort fileLE

/-- `file.name.endsWith('.mdx')`, on code points. -/
def nameEndsWith (name suffix : String) : Bool :=
  suffix.data.isSuffixOf name.data

/-- `getPosts` lines 160–170: keep `type === 'file'` entries with an
`.mdx` name and sort them. -/
def mdxListing (files : List GitHubFile) : List GitHubFile :=
  sortFiles (files.filter (fun f => f.ftype == "file" && nameEndsWith f.name ".mdx"))

/-- The pagination step of `getPosts` (lines 172–176, identical in
`PostLoader.getLocalPosts`): `startIndex = (page-1)*pageSize`,
`endIndex = startIndex + pageSize`, the page is
`mdxFiles.slice(startIndex, endIndex)` and
`hasMore = endIndex < mdxFiles.length`. -/
def listingPages (files : List GitHubFile) (page pageSize : Nat) :
    List GitHubFile × Bool :=
  let mdxFiles := mdxListing files
  let startIndex := (page - 1) * pageSize
  let endIndex := startIndex + pageSize
  ((mdxFiles.drop startIndex).take pageSize, decide (endIndex < mdxFiles.length))

/-! ## Generic string scanning helpers

JavaScript string/regex primitives, modelled on `List Char`.  Scanners
that can jump forward take a `fuel` argument to make the recursion
structural; each step consumes at least one character, so passing the
input length (plus one where noted) computes the full scan. -/

/-- If `lit` is a prefix of `cs`, the remainder after it. -/
def stripLit : List Char → List Char → Option (List Char)
  | [], cs => some cs
  | _ :: _, [] => none
  | l :: ls, c :: cs => if l = c then stripLit ls cs else none

/-- The first suffix of the input (scanning left to right) that starts
with `pat`, i.e. the input from the first occurrence of `pat` on. -/
def findSuffixStartingWith (pat : List Char) : List Char → Option (List Char)
  | [] => match stripLit pat [] with
    | some _ => some []
    | none => none
  | c :: cs => match stripLit pat (c :: cs) with
    | some _ => some (c :: cs)
    | none => findSuffixStartingWith pat cs

/-- The remainder after the first `'\n'`; `none` when there is none
(a regex `.*?\n` tail fails without a newline, `.` not matching `'\n'`). -/
def dropThroughNewline (cs : List Char) : Option (List Char) :=
  match cs.dropWhile (fun c => !(c == '\n')) with
  | '\n' :: tail => some tail
  | _ => none

/-- JavaScript `String.prototype.trim` (ASCII whitespace: the inputs at
hand contain no exotic Unicode spaces). -/
def trimChars (l : List Char) : List Char :=
  ((l.dropWhile Char.isWhitespace).reverse.dropWhile Char.isWhitespace).reverse

def jsTrim (s : String) : String := String.mk (trimChars s.data)

/-- `replace(re, '')` with a global regex: scan left to right; `m` reports,
for a match starting at the current position, the remainder after it
(every matcher below consumes at least one character); on failure advance
one position. -/
def removeAllMatchesAux (m : List Char → Option (List Char)) : Nat → List Char → List Char
  | 0, l => l
  | _ + 1, [] => []
  | fuel + 1, c :: cs =>
    match m (c :: cs) with
    | some rest =>
      if rest.length < cs.length + 1 then removeAllMatchesAux m fuel rest
      else c :: removeAllMatchesAux m fuel cs
    | none => c :: removeAllMatchesAux m fuel cs

def removeAllMatches (m : List Char → Option (List Char)) (l : List Char) : List Char :=
  removeAllMatchesAux m l.length l

/-- `String.prototype.split(sep)` for a plain-string separator:
non-overlapping occurrences, scanned left to right. -/
def splitOnAux (sep : List Char) : Nat → List Char → List Char → List (List Char)
  | 0, acc, l => [acc.reverse ++ l]
  | _ + 1, acc, [] => [acc.reverse]
  | fuel + 1, acc, c :: cs =>
    match stripLit sep (c :: cs) with
    | some rest => acc.reverse :: splitOnAux sep fuel [] rest
    | none => splitOnAux sep fuel (c :: acc) cs

def splitOnList (sep l : List Char) : List (List Char) :=
  splitOnAux sep (l.length + 1) [] l

/-! ## Content preview (`mdx-parser.ts`, `extractContentPreview`) -/

/-- One cleaning pass of `extractContentPreview`:
`^---[\s\S]*?---` (no global flag, anchored): when the text starts with
`---` and `---` occurs again, drop through the end of that first later
occurrence (the lazy middle makes it the first one). -/
def removeFrontmatterOnce (cs : List Char) : List Char :=
  match stripLit "---".data cs with
  | none => cs
  | some cs1 =>
    match findSuffixStartingWith "---".data cs1 with
    | some rest => rest.drop 3
    | none => cs

/-- Matcher for `### Attachment \d+[\s\S]*?(?=\n###|\n##|$)`: the literal,
a nonempty digit run, then lazily up to (excluding) the first `"\n##"`
(every position matching `\n###` also matches `\n##`) or to the end. -/
def matchAttachmentTail (cs : List Char) : Option (List Char) :=
  match stripLit "### Attachment ".data cs with
  | none => none
  | some cs1 =>
    if (cs1.takeWhile Char.isDigit).isEmpty then none
    else
      match findSuffixStartingWith "\n##".data (cs1.dropWhile Char.isDigit) with
      | some rest => some rest
      | none => some []

/-- Matcher for `lit[\s\S]*?(?=\n##|$)` (the `## Attachments` and
`## Engagement` passes). -/
def matchSectionFrom (lit : String) (cs : List Char) : Option (List Char) :=
  match stripLit lit.data cs with
  | none => none
  | some cs1 =>
    match findSuffixStartingWith "\n##".data cs1 with
    | some rest => some rest
    | none => some []

/-- Matcher for `lit.*?\n` (the `**Date:**` … `**Total Reactions:**`
metadata-echo passes): the literal, then lazily up to and including the
first newline; no newline, no match. -/
def matchLineFrom (lit : String) (cs : List Char) : Option (List Char) :=
  (stripLit lit.data cs).bind dropThroughNewline

/-- Matcher for `#+ [^\n]*\n` (header removal): a maximal nonempty `#` run
must be followed by a space (a shorter run would be followed by `#`), then
the rest of the line including its newline. -/
def matchHeaderLine (cs : List Char) : Option (List Char) :=
  if (cs.takeWhile (fun c => c == '#')).isEmpty then none
  else
    match cs.dropWhile (fun c => c == '#') with
    | ' ' :: cs1 => dropThroughNewline cs1
    | _ => none

/-- Matcher for `\*Backed up by.*?\*`: the literal, then lazily up to and
including the first `'*'`, which must occur before any newline (`.` does
not match `'\n'`). -/
def matchBackupFooter (cs : List Char) : Option (List Char) :=
  match stripLit "*Backed up by".data cs with
  | none => none
  | some cs1 =>
    match cs1.dropWhile (fun c => !(c == '*' || c == '\n')) with
    | '*' :: rest => some rest
    | _ => none

/-- The word class `[a-zA-Z0-9_]` (ASCII). -/
def isWordChar (c : Char) : Bool := c.isAlpha || c.isDigit || c == '_'

/-- Matcher for `#[a-zA-Z0-9_]+` (hashtag removal). -/
def matchHashtag : List Char → Option (List Char)
  | '#' :: cs1 =>
    if (cs1.takeWhile isWordChar).isEmpty then none
    else some (cs1.dropWhile isWordChar)
  | _ => none

/-- The cleaning chain of `extractContentPreview`: decode entities, then
apply the twelve `replace` passes in source order, then `trim()`. -/
def cleanBody (content : String) : String :=
  let s0 := (decodeHtmlEntities content).data
  let s1 := removeFrontmatterOnce s0
  let s2 := removeAllMatches matchAttachmentTail s1
  let s3 := removeAllMatches (matchSectionFrom "## Attachments") s2
  let s4 := removeAllMatches (matchSectionFrom "## Engagement") s3
  let s5 := removeAllMatches (matchLineFrom "**Date:**") s4
  let s6 := removeAllMatches (matchLineFrom "**Feed:**") s5
  let s7 := removeAllMatches (matchLineFrom "**Post ID:**") s6
  let s8 := removeAllMatches (matchLineFrom "**Author:**") s7
  let s9 := removeAllMatches (matchLineFrom "**Total Reactions:**") s8
  let s10 := removeAllMatches matchHeaderLine s9
  let s11 := removeAllMatches matchBackupFooter s10
  let s12 := removeAllMatches matchHashtag s11
  String.mk (trimChars s12)

/-- `cleanContent.split('\n\n').filter(p => p.trim().length > 0)[0] ||
cleanContent`: the first paragraph with nonblank content, else the whole
cleaned text. -/
def firstParagraphOf (content : String) : String :=
  let cleanContent := cleanBody content
  let paragraphs := (splitOnList "\n\n".data cleanContent.data).filter
    (fun p => (trimChars p).length > 0)
  match paragraphs with
  | p :: _ => String.mk p
  | [] => cleanContent

/-- UTF-16 code-unit count (JavaScript `String.prototype.length`):
characters above `U+FFFF` take a surrogate pair. -/
def utf16Length (l : List Char) : Nat :=
  (l.map (fun c => if c.toNat < 0x10000 then 1 else 2)).sum

/-- `extractContentPreview` of `mdx-parser.ts`: clean the body, take the
first nonblank paragraph, and when it is longer than 200 UTF-16 units
*and* longer than 200 code points (`Array.from`), return its first 200
code points followed by `'...'`; otherwise the paragraph itself, or the
fixed message when it is empty.  (The `catch` branch is dead in this
total model.) -/
def extractContentPreview (content : String) : String :=
  let firstParagraph := firstParagraphOf content
  if utf16Length firstParagraph.data > 200 then
    if firstParagraph.data.length > 200 then
      String.mk (firstParagraph.data.take 200) ++ "..."
    else if firstParagraph == "" then "No content preview available." else firstParagraph
  else if firstParagraph == "" then "No content preview available." else firstParagraph

/-! ## Attachments (`mdx-parser.ts`, `parseAttachments`) -/

/-- `PostAttachment` of `types/post.ts` (`type` rendered `atype`). -/
structure PostAttachment where
  atype : String
  description : Option String
  url : Option String
  image : Option String
deriving DecidableEq

/-- `Partial<PostAttachment>` accumulated by `parseAttachmentSection`. -/
structure PartialAttachment where
  atype : Option String
  description : Option String
  url : Option String
  image : Option String
deriving DecidableEq

/-- Strip a literal prefix off an already-trimmed line and trim the rest
(`trimmedLine.replace(lit, '').trim()` for a line starting with `lit`). -/
def lineValue (lit : String) (t : List Char) : Option String :=
  (stripLit lit.data t).map (fun v => String.mk (trimChars v))

/-- The per-line `if/else if` chain of `parseAttachmentSection`. -/
def parseAttachLine (st : PartialAttachment) (line : List Char) : PartialAttachment :=
  let t := trimChars line
  match lineValue "- **Type:**" t with
  | some v =>
    if v == "photo" || v == "video" || v == "link" then { st with atype := some v } else st
  | none =>
    match lineValue "- **Description:**" t with
    | some v => { st with description := some v }
    | none =>
      match lineValue "- **URL:**" t with
      | some v => { st with url := some v }
      | none =>
        match lineValue "- **Image:**" t with
        | some v => { st with image := some v }
        | none => st

/-- `parseAttachmentSection` of `mdx-parser.ts`: split into nonblank
lines, fold the key/value bullets, and produce an attachment only when a
valid `Type` was seen. -/
def parseAttachmentSection (content : List Char) : Option PostAttachment :=
  let lines := (splitOnList "\n".data content).filter (fun l => (trimChars l).length > 0)
  let st := lines.foldl parseAttachLine ⟨none, none, none, none⟩
  match st.atype with
  | some ty => some ⟨ty, st.description, st.url, st.image⟩
  | none => none

/-- Matcher for the capture-group form `### Attachment \d+\n([\s\S]*?)`
of `parseAttachments`: the header line, returning the remainder after its
newline. -/
def matchAttachHeader (cs : List Char) : Option (List Char) :=
  match stripLit "### Attachment ".data cs with
  | none => none
  | some cs1 =>
    if (cs1.takeWhile Char.isDigit).isEmpty then none
    else
      match cs1.dropWhile Char.isDigit with
      | '\n' :: rest => some rest
      | _ => none

/-- Scan for the first position where the attachment header matches. -/
def findAttachHeader : List Char → Option (List Char)
  | [] => none
  | c :: cs =>
    match matchAttachHeader (c :: cs) with
    | some rest => some rest
    | none => findAttachHeader cs

/-- Split at the lookahead `(?=\n###|\n##|$)`: the capture runs to
(excluding) the first `"\n##"`, or to the end. -/
def captureUntilBoundary : List Char → List Char × List Char
  | [] => ([], [])
  | c :: cs =>
    match stripLit "\n##".data (c :: cs) with
    | some _ => ([], c :: cs)
    | none =>
      let p := captureUntilBoundary cs
      (c :: p.1, p.2)

/-- The `exec` loop of `parseAttachments`: repeatedly find the next
attachment section, parse it, and continue after the match. -/
def parseAttachmentsAux : Nat → List Char → List PostAttachment
  | 0, _ => []
  | fuel + 1, cs =>
    match findAttachHeader cs with
    | none => []
    | some afterHeader =>
      let p := captureUntilBoundary afterHeader
      (match parseAttachmentSection p.1 with
       | some a => [a]
       | none => []) ++ parseAttachmentsAux fuel p.2

/-- `parseAttachments` of `mdx-parser.ts`. -/
def parseAttachments (content : String) : List PostAttachment :=
  parseAttachmentsAux content.data.length content.data

/-! ## Front matter (`gray-matter` collaborator) and `parseMDXContent` -/

/-- A front-matter scalar as JavaScript sees it after YAML parsing. -/
inductive YamlValue
  | ynull
  | ybool (b : Bool)
  | ynum (n : Int)
  | ystr (s : String)
deriving DecidableEq

/-- JavaScript truthiness of `data[field]` (`!data[field]` is its
negation): absent, `null`, `false`, `0` and `''` are falsy. -/
def yamlTruthy : Option YamlValue → Bool
  | none => false
  | some .ynull => false
  | some (.ybool b) => b
  | some (.ynum n) => n != 0
  | some (.ystr s) => s != ""

def isIntLit (t : List Char) : Bool :=
  match t with
  | '-' :: ds => !ds.isEmpty && ds.all Char.isDigit
  | ds => !ds.isEmpty && ds.all Char.isDigit

def natOfDigits (ds : List Char) : Nat :=
  ds.foldl (fun acc c => 10 * acc + digitVal c) 0

def intOfLit (t : List Char) : Int :=
  match t with
  | '-' :: ds => -(natOfDigits ds : Int)
  | ds => (natOfDigits ds : Nat)

/-- YAML scalar interpretation for the simple one-line values in scope:
empty → null, `true`/`false` → booleans, integer literals → numbers,
optionally double-quoted text → strings. -/
def parseScalar (v : List Char) : YamlValue :=
  let t := trimChars v
  if t.isEmpty then .ynull
  else if t = "true".data then .ybool true
  else if t = "false".data then .ybool false
  else if isIntLit t then .ynum (intOfLit t)
  else
    match t with
    | '"' :: rest =>
      if rest ≠ [] ∧ rest.getLast? = some '"' then .ystr (String.mk (rest.dropLast))
      else .ystr (String.mk t)
    | _ => .ystr (String.mk t)

/-- A `key: value` front-matter line; lines without a colon are ignored. -/
def parseFMLine (line : List Char) : Option (String × YamlValue) :=
  match line.dropWhile (fun c => !(c == ':')) with
  | ':' :: v => some (String.mk (trimChars (line.takeWhile (fun c => !(c == ':')))), parseScalar v)
  | _ => none

/-- Modelled from the spec: the front-matter splitter is the external
`gray-matter` library, whose code is not part of this repository.
Spec §4.1 step 2: "Split into a metadata block (frontmatter) and body
using a structured front-matter format (key/value pairs terminated by a
delimiter line before and after)."  A document whose first line is `---`
has the lines up to the next `---` line parsed as `key: value` pairs and
the lines after it as the body; otherwise (including an unterminated
block) the data is empty and the whole text is the body. -/
def matterSplit (content : String) : List (String × YamlValue) × String :=
  match splitOnList "\n".data content.data with
  | [] => ([], content)
  | first :: rest =>
    if trimChars first = "---".data then
      let fm := rest.takeWhile (fun l => !(trimChars l == "---".data))
      match rest.dropWhile (fun l => !(trimChars l == "---".data)) with
      | _ :: body =>
        (fm.filterMap parseFMLine, String.mk (List.intercalate "\n".data body))
      | [] => ([], content)
    else ([], content)

/-- `data[field]` on the parsed front matter. -/
def lookupField (data : List (String × YamlValue)) (f : String) : Option YamlValue :=
  (data.find? (fun kv => kv.1 == f)).map (fun kv => kv.2)

/-- `PostMetadata` of `types/post.ts`. -/
structure PostMetadata where
  title : String
  author : String
  authorId : String
  date : String
  feedName : String
  feedType : String
  postId : String
  reactions : Int
deriving DecidableEq

structure Engagement where
  totalReactions : Int
deriving DecidableEq

/-- `Post` of `types/post.ts`. -/
structure Post where
  metadata : PostMetadata
  content : String
  attachments : List PostAttachment
  engagement : Engagement
  fileName : String
  path : String
deriving DecidableEq

/-- The five required metadata fields of `parseMDXContent`. -/
def requiredFields : List String := ["title", "author", "date", "feedName", "postId"]

/-- JavaScript string coercion of a front-matter scalar. -/
def yamlToString : YamlValue → String
  | .ynull => "null"
  | .ybool b => if b then "true" else "false"
  | .ynum n => toString n
  | .ystr s => s

/-- `data[f] || dflt` used as a string. -/
def fieldOr (data : List (String × YamlValue)) (f dflt : String) : String :=
  let v := lookupField data f
  if yamlTruthy v then yamlToString (v.getD .ynull) else dflt

/-- `data.reactions || 0` (numeric values; a non-numeric truthy scalar is
out of the `PostMetadata` type and does not occur in these documents). -/
def reactionsOf (data : List (String × YamlValue)) : Int :=
  match lookupField data "reactions" with
  | some (.ynum n) => if n != 0 then n else 0
  | _ => 0

/-- `parseMDXContent` of `mdx-parser.ts`: decode entities, split front
matter, fail (return `null`) when any required field is falsy, else build
the `Post`.  The source's fallback for `date` is `new Date().toISOString()`,
unreachable because `date` just passed the required check; it is rendered
by an empty string here. -/
def parseMDXContent (content fileName path : String) : Option Post :=
  let decodedContent := decodeHtmlEntities content
  let parts := matterSplit decodedContent
  let data := parts.1
  let markdownContent := parts.2
  if requiredFields.any (fun f => !(yamlTruthy (lookupField data f))) then none
  else
    some
      { metadata :=
          { title := decodeHtmlEntities (fieldOr data "title" "Untitled Post")
            author := decodeHtmlEntities (fieldOr data "author" "Unknown Author")
            authorId := fieldOr data "authorId" "0"
            date := fieldOr data "date" ""
            feedName := decodeHtmlEntities (fieldOr data "feedName" "Unknown Feed")
            feedType := fieldOr data "feedType" "unknown"
            postId := fieldOr data "postId" fileName
            reactions := reactionsOf data }
        content := extractContentPreview markdownContent
        attachments := parseAttachments markdownContent
        engagement := { totalReactions := reactionsOf data }
        fileName := fileName
        path := path }

/-! ## Persistent cache (`persistent-cache.ts`) -/

/-- `PersistentCacheEntry` (the `data` payload type is a parameter). -/
structure PCEntry (α : Type) where
  data : α
  timestamp : Int
  etag : Option String
  expiresAt : Int
deriving DecidableEq

/-- `localStorage` as an ordered key/value association (`Object.keys`
enumeration in insertion order; keys are unique). -/
abbrev LocalStorage (α : Type) := List (String × PCEntry α)

/-- `'feed-watcher-cache:'`. -/
def cachePrefix : String := "feed-watcher-cache:"

/-- `getKey` of `PersistentCache`. -/
def cacheKeyOf (key : String) : String := cachePrefix ++ key

/-- `key.startsWith(this.prefix)`. -/
def isPrefixed (k : String) : Bool := (stripLit cachePrefix.data k.data).isSome

def lsGetItem (st : LocalStorage α) (k : String) : Option (PCEntry α) :=
  (List.find? (fun kv => kv.1 == k) st).map (fun kv => kv.2)

/-- `localStorage.setItem`: replace in place, or append a new key. -/
def lsSetItem (st : LocalStorage α) (k : String) (e : PCEntry α) : LocalStorage α :=
  if List.any st (fun kv => kv.1 == k) then
    List.map (fun kv => if kv.1 == k then (k, e) else kv) st
  else st ++ [(k, e)]

def lsRemoveItem (st : LocalStorage α) (k : String) : LocalStorage α :=
  List.filter (fun kv => !(kv.1 == k)) st

/-- `maxSize = 50`. -/
def maxSize : Nat := 50

/-- Write-timestamp order used by `cleanup`'s eviction sort
(`(a, b) => a.entry.timestamp - b.entry.timestamp`). -/
def tsLE (a b : String × PCEntry α) : Prop := a.2.timestamp ≤ b.2.timestamp

instance : DecidableRel (tsLE (α := α)) :=
  fun a b => inferInstanceAs (Decidable (a.2.timestamp ≤ b.2.timestamp))

instance : IsTotal (String × PCEntry α) tsLE := ⟨fun a b => Int.le_total a.2.timestamp b.2.timestamp⟩

instance : IsTrans (String × PCEntry α) tsLE := ⟨fun _ _ _ h h' => le_trans h h'⟩

/-- The prefixed entries still valid at `now`
(`entries.filter(({entry}) => now <= entry.expiresAt)` over the collected
prefixed entries). -/
def validEntriesOf (now : Int) (st : LocalStorage α) : LocalStorage α :=
  List.filter (fun kv => isPrefixed kv.1 && decide (now ≤ kv.2.expiresAt)) st

/-- `cleanup` of `PersistentCache`: collect the prefixed entries, remove
the expired ones (`now > expiresAt`) from storage, and when aggressive or
more than `maxSize` valid entries remain, sort the valid ones by ascending
write timestamp and remove the first `toRemove` (oldest) ones.  (The
corrupted-JSON branch is unrepresentable in this typed model.) -/
def pcCleanup (now : Int) (aggressive : Bool) (st : LocalStorage α) : LocalStorage α :=
  let st1 := List.filter (fun kv => !(isPrefixed kv.1 && decide (now > kv.2.expiresAt))) st
  let validEntries := validEntriesOf now st
  if aggressive || validEntries.length > maxSize then
    let sortedValid := validEntries.insertionSort tsLE
    let toRemove := if aggressive then validEntries.length / 2 else validEntries.length - maxSize
    let removedKeys := (sortedValid.take toRemove).map (fun kv => kv.1)
    List.filter (fun kv => !(removedKeys.contains kv.1)) st1
  else st1

/-- The store right after `set`'s `localStorage.setItem` write, before
the cleanup pass: the new entry is
`{data, timestamp: Date.now(), etag, expiresAt: Date.now() + ttl}`. -/
def insertedStore (st : LocalStorage α) (key : String) (d : α) (ttl now : Int)
    (etag : Option String) : LocalStorage α :=
  lsSetItem st (cacheKeyOf key) ⟨d, now, etag, now + ttl⟩

/-- `set` of `PersistentCache` (the success path; a quota failure would
skip the write and run an aggressive cleanup instead). -/
def pcSet (st : LocalStorage α) (key : String) (d : α) (ttl now : Int)
    (etag : Option String) : LocalStorage α :=
  pcCleanup now false (insertedStore st key d ttl now etag)

/-- `get` of `PersistentCache`: `null` when absent; delete and return
`null` when `now > expiresAt`; otherwise the entry. -/
def pcGet (st : LocalStorage α) (key : String) (now : Int) :
    Option (PCEntry α) × LocalStorage α :=
  match lsGetItem st (cacheKeyOf key) with
  | none => (none, st)
  | some e =>
    if now > e.expiresAt then (none, lsRemoveItem st (cacheKeyOf key))
    else (some e, st)

/-! ## Remote adapter request phase (`github-api.ts`, `makeRequest`) -/

/-- The memory `CacheEntry` of `GitHubAPI` (`{data, timestamp, etag?}`). -/
structure MemEntry (α : Type) where
  data : α
  timestamp : Int
  etag : Option String
deriving DecidableEq

/-- The adapter state read by the pre-network phase of `makeRequest`:
memory cache keyed by full URL, the shared persistent store, and the
tracked rate-limit counters. -/
structure APIState (α : Type) where
  cache : List (String × MemEntry α)
  storage : LocalStorage α
  rateLimitRemaining : Int
  rateLimitReset : Int

def memLookup (cache : List (String × MemEntry α)) (url : String) : Option (MemEntry α) :=
  (List.find? (fun kv => kv.1 == url) cache).map (fun kv => kv.2)

def memSet (cache : List (String × MemEntry α)) (url : String) (e : MemEntry α) :
    List (String × MemEntry α) :=
  if List.any cache (fun kv => kv.1 == url) then
    List.map (fun kv => if kv.1 == url then (url, e) else kv) cache
  else cache ++ [(url, e)]

def GITHUB_API_BASE : String := "https://api.github.com"

def CACHE_DURATION : Int := 5 * 60 * 1000

def LONG_CACHE_DURATION : Int := 30 * 60 * 1000

/-- `cacheDuration || this.CACHE_DURATION` (`0` is falsy). -/
def durationOf (cacheDuration : Option Int) : Int :=
  match cacheDuration with
  | some d => if d != 0 then d else CACHE_DURATION
  | none => CACHE_DURATION

/-- Where `makeRequest` stops before any network activity: a memory-cache
hit, a persistent-cache hit (which also populates the memory cache), the
rate-limit error, or the point where `fetch` would be issued (carrying
the `If-None-Match` value from `this.cache.get(url) || persistentEntry`).
Everything from the `fetch` on needs a network response and is outside
this model. -/
inductive RequestPhase (α : Type)
  | memoryHit (d : α)
  | persistentHit (d : α)
  | rateLimitError
  | networkFetch (url : String) (ifNoneMatch : Option String)
deriving DecidableEq

/-- `makeRequest` after the memory-cache check: persistent lookup (whose
expiry check may delete the entry), then the rate-limit gate
`rateLimitRemaining <= 1 && Date.now() < rateLimitReset * 1000`, then the
fetch. -/
def makeRequestAfterMemory (st : APIState α) (now : Int) (url cacheKey : String)
    (duration : Int) : RequestPhase α × APIState α :=
  let pres := pcGet st.storage cacheKey now
  let st := { st with storage := pres.2 }
  match pres.1 with
  | some e =>
    if now - e.timestamp < duration then
      (.persistentHit e.data, { st with cache := memSet st.cache url ⟨e.data, e.timestamp, e.etag⟩ })
    else
      if st.rateLimitRemaining ≤ 1 ∧ now < st.rateLimitReset * 1000 then
        (.rateLimitError, st)
      else
        (.networkFetch url ((memLookup st.cache url).map (fun c => c.etag) |>.getD e.etag), st)
  | none =>
    if st.rateLimitRemaining ≤ 1 ∧ now < st.rateLimitReset * 1000 then
      (.rateLimitError, st)
    else
      (.networkFetch url (((memLookup st.cache url).map (fun c => c.etag)).getD none), st)

/-- The pre-network phase of `makeRequest` (`github-api.ts` lines 37–63):
memory cache first (`Date.now() - cached.timestamp < duration`), then
persistent cache, then the rate-limit gate, then `fetch`. -/
def makeRequestPhase (st : APIState α) (now : Int) (endpoint : String)
    (cacheDuration : Option Int) : RequestPhase α × APIState α :=
  let url := GITHUB_API_BASE ++ endpoint
  let duration := durationOf cacheDuration
  let cacheKey := "api:" ++ endpoint
  match memLookup st.cache url with
  | some cached =>
    if now - cached.timestamp < duration then (.memoryHit cached.data, st)
    else makeRequestAfterMemory st now url cacheKey duration
  | none => makeRequestAfterMemory st now url cacheKey duration

/-! ## Full page load (`getPosts`) -/

/-- `getPosts` over a directory listing: paginate (`listingPages`), then
fetch and parse each selected file, skipping files whose fetch fails
(`fetchContent = none`) or whose parse returns `null`. -/
def getPosts (fetchContent : String → Option String) (files : List GitHubFile)
    (page pageSize : Nat) : List Post × Bool :=
  let slice := listingPages files page pageSize
  (slice.1.filterMap (fun f => (fetchContent f.path).bind
    (fun c => parseMDXContent c f.name f.path)), slice.2)

/-! ## Configuration (`config.ts`) -/

/-- `FeedConfig` of `types/post.ts`. -/
structure FeedConfig where
  repositoryUrl : String
  owner : String
  repo : String
  postsPath : String
deriving DecidableEq

/-- `defaultConfig` of `config.ts`. -/
def defaultConfig : FeedConfig :=
  { repositoryUrl := "https://github.com/monokaijs/j2team-backup"
    owner := "monokaijs"
    repo := "j2team-backup"
    postsPath := "posts/j2team-community-backup" }

/-- Try the full pattern `github\.com\/([^\/]+)\/([^\/]+)` at the current
position: the literal, a maximal nonempty slash-free run (which must be
followed by `'/'`), and a nonempty slash-free run. -/
def matchRepoAt (cs : List Char) : Option (String × String) :=
  match stripLit "github.com/".data cs with
  | none => none
  | some cs1 =>
    let owner := cs1.takeWhile (fun c => !(c == '/'))
    if owner.isEmpty then none
    else
      match cs1.dropWhile (fun c => !(c == '/')) with
      | '/' :: cs2 =>
        let repo := cs2.takeWhile (fun c => !(c == '/'))
        if repo.isEmpty then none
        else some (String.mk owner, String.mk repo)
      | _ => none

/-- `url.match(/github\.com\/([^\/]+)\/([^\/]+)/)`: the first position
where the whole pattern matches. -/
def searchRepoPattern : List Char → Option (String × String)
  | [] => none
  | c :: cs =>
    match matchRepoAt (c :: cs) with
    | some r => some r
    | none => searchRepoPattern cs

/-- `repo.replace(/\.git$/, '')`. -/
def stripDotGit (repo : String) : String :=
  if ".git".data.isSuffixOf repo.data then String.mk (repo.data.take (repo.data.length - 4))
  else repo

/-- `parseRepositoryUrl` of `config.ts`. -/
def parseRepositoryUrl (url : String) : Option (String × String) :=
  (searchRepoPattern url.data).map (fun p => (p.1, stripDotGit p.2))

/-- `validateRepositoryUrl` of `config.ts`. -/
def validateRepositoryUrl (url : String) : Bool :=
  (parseRepositoryUrl url).isSome

/-- `Partial<FeedConfig>` passed to `saveConfig`. -/
structure ConfigPatch where
  repositoryUrl : Option String
  owner : Option String
  repo : Option String
  postsPath : Option String
deriving DecidableEq

/-- `{ ...currentConfig, ...config }`. -/
def applyPatch (cfg : FeedConfig) (p : ConfigPatch) : FeedConfig :=
  { repositoryUrl := p.repositoryUrl.getD cfg.repositoryUrl
    owner := p.owner.getD cfg.owner
    repo := p.repo.getD cfg.repo
    postsPath := p.postsPath.getD cfg.postsPath }

/-- `getConfig`: the stored config over the default (the stored record is
a full `FeedConfig`, so the spread keeps its fields). -/
def getConfig (stored : Option FeedConfig) : FeedConfig :=
  match stored with
  | some cfg => cfg
  | none => defaultConfig

/-- `saveConfig` of `config.ts`, as a function from the stored state to
the new stored state: merge the patch over the current config; when the
patch carries a truthy `repositoryUrl` that parses, re-derive
`owner`/`repo` from it; then *always* persist the merged record. -/
def saveConfig (stored : Option FeedConfig) (patch : ConfigPatch) : Option FeedConfig :=
  let currentConfig := getConfig stored
  let newConfig := applyPatch currentConfig patch
  let newConfig :=
    match patch.repositoryUrl with
    | some url =>
      if url != "" then
        match parseRepositoryUrl url with
        | some p => { newConfig with owner := p.1, repo := p.2 }
        | none => newConfig
      else newConfig
    | none => newConfig
  some newConfig

/-! ## Concrete instances used by witnesses and counterexamples -/

/-- A file whose name matches the timestamp regex but encodes an invalid
calendar date (month 99): `extractDateFromFileName` yields an *Invalid
Date*, which is truthy. -/
def invalidDateFile : GitHubFile := ⟨"2024-99-99_00-00-00_a.mdx", "posts/a.mdx", "file"⟩

/-- A file with a valid embedded timestamp whose name sorts *after*
`invalidDateFile` in reverse lexicographic order. -/
def valid0101File : GitHubFile := ⟨"2024-01-01_00-00-00_b.mdx", "posts/b.mdx", "file"⟩

def dec14File : GitHubFile := ⟨"2024-12-14_00-00-00_old.mdx", "posts/old.mdx", "file"⟩

def dec15File : GitHubFile := ⟨"2024-12-15_10-30-00_welcome-post.mdx", "posts/w.mdx", "file"⟩

def plainAFile : GitHubFile := ⟨"a.mdx", "posts/a.mdx", "file"⟩

def plainBFile : GitHubFile := ⟨"b.mdx", "posts/b.mdx", "file"⟩

def plainDirEntry : GitHubFile := ⟨"c.mdx", "posts/c", "dir"⟩

def demoListing : List GitHubFile :=
  [plainAFile, dec14File, plainDirEntry, dec15File, plainBFile]

/-- 201 `a`s: its first paragraph survives every cleaning pass unchanged
and exceeds 200 code points. -/
def longBody : String := String.mk (List.replicate 201 'a')

def docMissingTitle : String := "---\nauthor: A\ndate: 2024-01-01\nfeedName: F\npostId: P\n---\nbody"

def docMissingAuthor : String := "---\ntitle: T\ndate: 2024-01-01\nfeedName: F\npostId: P\n---\nbody"

def docMissingDate : String := "---\ntitle: T\nauthor: A\nfeedName: F\npostId: P\n---\nbody"

def docMissingFeedName : String := "---\ntitle: T\nauthor: A\ndate: 2024-01-01\npostId: P\n---\nbody"

def docMissingPostId : String := "---\ntitle: T\nauthor: A\ndate: 2024-01-01\nfeedName: F\n---\nbody"

def docZeroTitle : String :=
  "---\ntitle: 0\nauthor: A\ndate: 2024-01-01\nfeedName: F\npostId: P\n---\nbody"

def docFalseTitle : String :=
  "---\ntitle: false\nauthor: A\ndate: 2024-01-01\nfeedName: F\npostId: P\n---\nbody"

def docEmptyTitle : String :=
  "---\ntitle: \"\"\nauthor: A\ndate: 2024-01-01\nfeedName: F\npostId: P\n---\nbody"

/-! # Theorems -/

/-! ## Supporting lemmas -/

theorem lexLt_asymm : ∀ x y : List Char, lexLt x y = true → lexLt y x = false
  | [], [] => by simp [lexLt]
  | [], _ :: _ => by simp [lexLt]
  | _ :: _, [] => by simp [lexLt]
  | a :: as, b :: bs => by
    simp only [lexLt]
    split_ifs with h1 h2 h3 <;> try omega
    · intro; rfl
    · simp
    · exact lexLt_asymm as bs

theorem compareNamesDesc_antisymm (a b : String) :
    compareNamesDesc a b = -compareNamesDesc b a := by
  unfold compareNamesDesc
  rcases h1 : lexLt b.data a.data <;> rcases h2 : lexLt a.data b.data <;> simp
  exact absurd (lexLt_asymm _ _ h2) (by simp [h1])

/-- Joining the successive `P`-sized slices of `l` reconstructs its first
`m * P` elements. -/
theorem join_slices (l : List α) (P : Nat) :
    ∀ m, ((List.range m).map (fun k => (l.drop (k * P)).take P)).flatten = l.take (m * P)
  | 0 => by simp
  | m + 1 => by
    rw [List.range_succ, List.map_append, List.flatten_append, join_slices l P m]
    simp [Nat.succ_mul, List.take_add]

/-! ## C1: pagination partitions the sorted listing -/

/-- **C1.** For every listing and page size `P ≥ 1`, the slices produced
by the pagination step of `getPosts` for pages `1 .. ⌈N/P⌉` concatenate,
in order, to exactly the sorted `.mdx` listing (no duplicates, no gaps),
and `hasMore` is `true` iff `page * P < N`. -/
theorem getPosts_pagination (files : List GitHubFile) (P : Nat) (hP : 1 ≤ P) :
    (((List.range (((mdxListing files).length + P - 1) / P)).map
        (fun k => (listingPages files (k + 1) P).1)).flatten = mdxListing files)
    ∧ ∀ page, 1 ≤ page →
        ((listingPages files page P).2 = true ↔ page * P < (mdxListing files).length) := by
  constructor
  · have hpages : (fun k => (listingPages files (k + 1) P).1)
        = fun k => ((mdxListing files).drop (k * P)).take P := by
      funext k
      simp [listingPages]
    rw [hpages, join_slices]
    apply List.take_of_length_le
    rw [Nat.mul_comm]
    have hq := Nat.div_add_mod ((mdxListing files).length + P - 1) P
    have hr := Nat.mod_lt ((mdxListing files).length + P - 1) (show 0 < P by omega)
    omega
  · intro page hpage
    obtain ⟨a, rfl⟩ : ∃ a, page = a + 1 := ⟨page - 1, by omega⟩
    simp [listingPages, Nat.succ_mul]

/-- Witness for C1 on a concrete five-entry listing (four `.mdx` files,
one directory) with `P = 3`: two pages reconstruct the listing, page 1
has more, page 2 does not. -/
theorem getPosts_pagination_witness :
    (((List.range (((mdxListing demoListing).length + 3 - 1) / 3)).map
        (fun k => (listingPages demoListing (k + 1) 3).1)).flatten = mdxListing demoListing)
    ∧ ((listingPages demoListing 1 3).2 = true ↔ 1 * 3 < (mdxListing demoListing).length)
    ∧ ((listingPages demoListing 2 3).2 = true ↔ 2 * 3 < (mdxListing demoListing).length) :=
  ⟨(getPosts_pagination demoListing 3 (by decide)).1,
   (getPosts_pagination demoListing 3 (by decide)).2 1 (by decide),
   (getPosts_pagination demoListing 3 (by decide)).2 2 (by decide)⟩

/-! ## C2: sort comparator -/

/-- Counterexample for C2 as stated.  `invalidDateFile`'s name carries no
parseable timestamp (its `Date` is invalid, `extractDateFromFileName` =
`some none`), so the claim requires the pair to be ordered by reverse
lexicographic name comparison, which puts `invalidDateFile` first
(`compareNamesDesc invalidDateFile.name valid0101File.name < 0`); but the
comparator returns `0` for the pair (an Invalid Date is truthy and its
`getTime()` is `NaN`, mapped to `±0` by `SortCompare`), so the stable
sort leaves `[valid0101File, invalidDateFile]` unchanged instead. -/
theorem comparator_invalid_date_counterexample :
    extractDateFromFileName invalidDateFile.name = some none
    ∧ compareNamesDesc invalidDateFile.name valid0101File.name < 0
    ∧ postComparator valid0101File invalidDateFile = 0
    ∧ postComparator invalidDateFile valid0101File = 0
    ∧ sortFiles [valid0101File, invalidDateFile] = [valid0101File, invalidDateFile] := by
  decide

/-- **C2 (amended).** The comparator orders two entries with *valid*
parsed timestamps strictly descending by timestamp; when either filename
fails the timestamp regex it falls back to reverse lexicographic name
comparison; an entry whose name matches the regex but encodes an invalid
date compares equal (`NaN → ±0`) to every other regex-matching entry;
the comparator is antisymmetric (hence any two entries are comparable),
and the sort is a stable permutation, so repeated sorts of an unchanged
listing give the same sequence. -/
theorem comparator_spec :
    (∀ a b ta tb, extractDateFromFileName a.name = some (some ta) →
        extractDateFromFileName b.name = some (some tb) →
        ((tb < ta → postComparator a b < 0) ∧ (ta < tb → 0 < postComparator a b)
          ∧ (ta = tb → postComparator a b = 0)))
    ∧ (∀ a b, extractDateFromFileName a.name = none ∨ extractDateFromFileName b.name = none →
        postComparator a b = compareNamesDesc a.name b.name)
    ∧ (∀ a b da db, extractDateFromFileName a.name = some da →
        extractDateFromFileName b.name = some db → (da = none ∨ db = none) →
        postComparator a b = 0)
    ∧ (∀ a b, postComparator a b = -postComparator b a)
    ∧ (∀ x y l, fileLE x y → List.Sublist [x, y] l → List.Sublist [x, y] (sortFiles l))
    ∧ (∀ l, List.Perm (sortFiles l) l) := by
  refine ⟨?_, ?_, ?_, ?_, ?_, ?_⟩
  · intro a b ta tb ha hb
    simp only [postComparator, ha, hb]
    omega
  · intro a b h
    rcases h with h | h
    · simp only [postComparator, h]
    · cases hx : extractDateFromFileName a.name with
      | none => simp only [postComparator, hx]
      | some da => simp only [postComparator, hx, h]
  · intro a b da db ha hb h
    simp only [postComparator, ha, hb]
    rcases h with rfl | rfl
    · rfl
    · cases da <;> rfl
  · intro a b
    simp only [postComparator]
    cases hx : extractDateFromFileName a.name <;> cases hy : extractDateFromFileName b.name
    · exact compareNamesDesc_antisymm a.name b.name
    · exact compareNamesDesc_antisymm a.name b.name
    · exact compareNamesDesc_antisymm a.name b.name
    · rename_i da db
      cases da <;> cases db <;> simp
  · intro x y l h hsub
    exact List.pair_sublist_insertionSort h hsub
  · intro l
    exact List.perm_insertionSort fileLE l

/-- Witness for C2: the `2024-12-15` file sorts strictly before the
`2024-12-14` file, and the pair keeps its order through `sortFiles`. -/
theorem comparator_spec_witness :
    postComparator dec15File dec14File < 0
    ∧ List.Sublist [dec15File, dec14File] (sortFiles [dec15File, dec14File]) :=
  ⟨((comparator_spec.1 dec15File dec14File
        (utcMillis 2024 12 15 10 30 0) (utcMillis 2024 12 14 0 0 0)
        (by decide) (by decide)).1 (by decide)),
   comparator_spec.2.2.2.2.1 dec15File dec14File [dec15File, dec14File]
     (by decide) (List.Sublist.refl _)⟩

/-! ## C3: entity decoding is not idempotent -/

/-- **C3 (code bug).** The decoder is not idempotent: one pass turns
`"&amp;lt;"` into `"&lt;"`, whose second decoding corrupts it to `"<"`.
The parse pipeline decodes the same text twice (whole document, then
title/author/feedName again, and the body again in
`extractContentPreview`), so already-decoded text is corrupted. -/
theorem decode_not_idempotent :
    decodeHtmlEntities "&amp;lt;" = "&lt;"
    ∧ decodeHtmlEntities (decodeHtmlEntities "&amp;lt;") = "<"
    ∧ decodeHtmlEntities (decodeHtmlEntities "&amp;lt;") ≠ decodeHtmlEntities "&amp;lt;" := by
  decide

/-! ## C9: saveConfig does not reject invalid repository URLs -/

/-- Counterexample for C9 as stated: `"not-a-valid-url"` does not match
the repository pattern, yet `saveConfig` persists the merged record with
that very string as `repositoryUrl` — the invalid URL *is* written to
durable storage. -/
theorem saveConfig_counterexample :
    parseRepositoryUrl "not-a-valid-url" = none
    ∧ saveConfig (some defaultConfig) ⟨some "not-a-valid-url", none, none, none⟩
        = some { defaultConfig with repositoryUrl := "not-a-valid-url" } := by
  decide

/-- **C9 (amended).** `saveConfig` never rejects: with a patch carrying a
`repositoryUrl` that does not parse, it persists the merged config
(invalid URL included) with `owner`/`repo` left unchanged; when the URL
parses, `owner` and `repo` are re-derived from it on every save.
(Rejection of invalid URLs happens only in the settings UI, before
`saveConfig` is called.) -/
theorem saveConfig_spec (stored : Option FeedConfig) (patch : ConfigPatch) (url : String)
    (hurl : patch.repositoryUrl = some url) :
    (parseRepositoryUrl url = none →
        saveConfig stored patch = some (applyPatch (getConfig stored) patch))
    ∧ ∀ ow rp, parseRepositoryUrl url = some (ow, rp) →
        saveConfig stored patch
          = some { applyPatch (getConfig stored) patch with owner := ow, repo := rp } := by
  constructor
  · intro hnone
    simp [saveConfig, hurl, hnone]
  · intro ow rp hsome
    have hne : (url != "") = true := by
      rcases url with ⟨cs⟩
      cases cs with
      | nil => simp [parseRepositoryUrl, searchRepoPattern] at hsome
      | cons c cs => simp [String.ext_iff]
    simp [saveConfig, hurl, hne, hsome]

/-- Witness for C9: a parsing URL has `owner`/`repo` re-derived and is
persisted together with them. -/
theorem saveConfig_spec_witness :
    saveConfig none ⟨some "https://github.com/x/y.git", none, none, none⟩
      = some { applyPatch (getConfig none) ⟨some "https://github.com/x/y.git", none, none, none⟩
                with owner := "x", repo := "y" } :=
  (saveConfig_spec none ⟨some "https://github.com/x/y.git", none, none, none⟩
      "https://github.com/x/y.git" rfl).2 "x" "y" (by decide)

/-! ## C4: content preview length -/

theorem utf16Length_ge (l : List Char) : l.length ≤ utf16Length l := by
  induction l with
  | nil => simp [utf16Length]
  | cons c cs ih =>
    simp only [utf16Length, List.map_cons, List.sum_cons, List.length_cons] at *
    split_ifs <;> omega

set_option maxRecDepth 200000 in
set_option maxHeartbeats 4000000 in
/-- Counterexample for C4 as stated: a body of 201 `a`s (untouched by
every cleaning pass) yields a preview of 200 code points plus the
three-character ellipsis — 203 code points, exceeding the claimed
200-point bound. -/
theorem preview_length_counterexample :
    (extractContentPreview longBody).length = 203 ∧ 200 < (extractContentPreview longBody).length := by
  constructor <;> decide

/-- **C4 (amended).** The preview never exceeds 203 code points (200 plus
the three-dot ellipsis): when the selected paragraph exceeds 200 code
points the preview is its first 200 code points followed by `"..."`, and
otherwise the preview is an exact copy of the paragraph (or the fixed
29-character fallback message when it is empty). -/
theorem preview_spec (content : String) :
    (extractContentPreview content).length ≤ 203
    ∧ (200 < (firstParagraphOf content).length →
        extractContentPreview content
          = String.mk ((firstParagraphOf content).data.take 200) ++ "...")
    ∧ ((firstParagraphOf content).length ≤ 200 → firstParagraphOf content ≠ "" →
        extractContentPreview content = firstParagraphOf content) := by
  have hge := utf16Length_ge (firstParagraphOf content).data
  have hlen : ∀ s : String, s.length = s.data.length := fun _ => rfl
  have hmk : ∀ l : List Char, (String.mk l).length = l.length := fun _ => rfl
  have hdots : ("..." : String).length = 3 := rfl
  have hdlen := hlen (firstParagraphOf content)
  refine ⟨?_, ?_, ?_⟩
  · simp only [extractContentPreview]
    split_ifs with h16 hcp hemp hemp
    · calc (String.mk ((firstParagraphOf content).data.take 200) ++ "...").length
          = ((firstParagraphOf content).data.take 200).length + 3 := by
            rw [String.length_append, hmk, hdots]
        _ ≤ 203 := by simp [List.length_take]
    · decide
    · rw [hdlen]; omega
    · decide
    · rw [hdlen]; omega
  · intro hlong
    rw [hdlen] at hlong
    simp only [extractContentPreview]
    rw [if_pos (by omega), if_pos (by omega)]
  · intro hshort hne
    rw [hdlen] at hshort
    simp only [extractContentPreview]
    split_ifs with h16 hcp hemp hemp
    · omega
    · exact absurd (by simpa using hemp) hne
    · rfl
    · exact absurd (by simpa using hemp) hne
    · rfl

/-- Witness for C4: a short nonempty body is copied into the preview
verbatim. -/
theorem preview_spec_witness :
    extractContentPreview "hello world" = firstParagraphOf "hello world" :=
  (preview_spec "hello world").2.2 (by decide) (by decide)

/-! ## C5 and C10: required front-matter fields -/

/-- A falsy required field (absent, `null`, `''`, `0` or `false`) makes
`parseMDXContent` return `null`. -/
theorem parse_none_of_falsy {doc fileName path f : String}
    (hf : f ∈ requiredFields)
    (hfalse : yamlTruthy (lookupField (matterSplit (decodeHtmlEntities doc)).1 f) = false) :
    parseMDXContent doc fileName path = none := by
  have hany : List.any requiredFields
      (fun g => !(yamlTruthy (lookupField (matterSplit (decodeHtmlEntities doc)).1 g))) = true :=
    List.any_eq_true.mpr ⟨f, hf, by rw [hfalse]; rfl⟩
  simp only [parseMDXContent, hany, if_true]

/-- **C5.** A front-matter document from which one of the five required
fields (title, author, date, feedName, postId) is absent makes
`parseMDXContent` return `null` (it never raises: the function is total
with an `Option` result; logging is outside the model). -/
theorem parse_missing_required (doc fileName path f : String)
    (hf : f ∈ requiredFields)
    (habs : lookupField (matterSplit (decodeHtmlEntities doc)).1 f = none) :
    parseMDXContent doc fileName path = none :=
  parse_none_of_falsy hf (by rw [habs]; rfl)

/-- Witness for C5: five concrete documents, each missing exactly one of
the five required fields, all parse to `null`. -/
theorem parse_missing_required_witness :
    parseMDXContent docMissingTitle "f.mdx" "posts/f.mdx" = none
    ∧ parseMDXContent docMissingAuthor "f.mdx" "posts/f.mdx" = none
    ∧ parseMDXContent docMissingDate "f.mdx" "posts/f.mdx" = none
    ∧ parseMDXContent docMissingFeedName "f.mdx" "posts/f.mdx" = none
    ∧ parseMDXContent docMissingPostId "f.mdx" "posts/f.mdx" = none :=
  ⟨parse_missing_required docMissingTitle "f.mdx" "posts/f.mdx" "title" (by decide) (by decide),
   parse_missing_required docMissingAuthor "f.mdx" "posts/f.mdx" "author" (by decide) (by decide),
   parse_missing_required docMissingDate "f.mdx" "posts/f.mdx" "date" (by decide) (by decide),
   parse_missing_required docMissingFeedName "f.mdx" "posts/f.mdx" "feedName" (by decide)
     (by decide),
   parse_missing_required docMissingPostId "f.mdx" "posts/f.mdx" "postId" (by decide) (by decide)⟩

/-- **C10.** A required field *present* but bound to a falsy scalar
(`''`, `0` or `false`) is rejected exactly as if it were absent:
`parseMDXContent` returns `null`. -/
theorem parse_falsy_required (doc fileName path f : String) (v : YamlValue)
    (hf : f ∈ requiredFields)
    (hv : lookupField (matterSplit (decodeHtmlEntities doc)).1 f = some v)
    (hfalsy : yamlTruthy (some v) = false) :
    parseMDXContent doc fileName path = none :=
  parse_none_of_falsy hf (by rw [hv]; exact hfalsy)

/-- Witness for C10: documents whose `title` is `0`, `false` or `""`
(with all five required fields present) all parse to `null`. -/
theorem parse_falsy_required_witness :
    parseMDXContent docZeroTitle "f.mdx" "posts/f.mdx" = none
    ∧ parseMDXContent docFalseTitle "f.mdx" "posts/f.mdx" = none
    ∧ parseMDXContent docEmptyTitle "f.mdx" "posts/f.mdx" = none :=
  ⟨parse_falsy_required docZeroTitle "f.mdx" "posts/f.mdx" "title" (.ynum 0) (by decide)
      (by decide) (by decide),
   parse_falsy_required docFalseTitle "f.mdx" "posts/f.mdx" "title" (.ybool false) (by decide)
      (by decide) (by decide),
   parse_falsy_required docEmptyTitle "f.mdx" "posts/f.mdx" "title" (.ystr "") (by decide)
      (by decide) (by decide)⟩

/-! ## C6: rate-limit gate fires before any network activity -/

/-- **C6.** When both cache tiers miss (no fresh memory entry, no fresh
persistent entry), the tracked remaining budget is ≤ 1 and the tracked
reset time is still in the future, `makeRequest` stops at
`rateLimitError`: the gate sits before the `fetch`, so no network call is
represented at all (`networkFetch` is the only constructor standing for
network activity). -/
theorem rate_limit_gate {α : Type} (st : APIState α) (now : Int) (endpoint : String)
    (cacheDuration : Option Int)
    (hmem : ∀ c, memLookup st.cache (GITHUB_API_BASE ++ endpoint) = some c →
        ¬(now - c.timestamp < durationOf cacheDuration))
    (hpers : ∀ e, (pcGet st.storage ("api:" ++ endpoint) now).1 = some e →
        ¬(now - e.timestamp < durationOf cacheDuration))
    (hrem : st.rateLimitRemaining ≤ 1)
    (hreset : now < st.rateLimitReset * 1000) :
    (makeRequestPhase st now endpoint cacheDuration).1 = .rateLimitError := by
  have hafter : (makeRequestAfterMemory st now (GITHUB_API_BASE ++ endpoint)
      ("api:" ++ endpoint) (durationOf cacheDuration)).1 = .rateLimitError := by
    unfold makeRequestAfterMemory
    cases hp : (pcGet st.storage ("api:" ++ endpoint) now).1 with
    | none => simp [hp, hrem, hreset]
    | some e => simp [hp, hpers e hp, hrem, hreset]
  unfold makeRequestPhase
  cases hm : memLookup st.cache (GITHUB_API_BASE ++ endpoint) with
  | none => simpa [hm] using hafter
  | some c => simpa [hm, hmem c hm] using hafter

/-- Witness for C6 on a concrete state: empty caches, 1 remaining call,
reset in the future. -/
theorem rate_limit_gate_witness :
    (makeRequestPhase (α := Nat) ⟨[], [], 1, 100⟩ 50 "/repos/o/r/contents/posts" none).1
      = .rateLimitError :=
  rate_limit_gate ⟨[], [], 1, 100⟩ 50 "/repos/o/r/contents/posts" none
    (fun c h => by simp [memLookup] at h)
    (fun e h => by simp [pcGet, lsGetItem] at h)
    (by decide) (by decide)

/-! ## C7: persistent-cache TTL -/

theorem find?_map_replace {α : Type} (st : LocalStorage α) (k : String) (e : PCEntry α)
    (hany : List.any st (fun kv => kv.1 == k) = true) :
    List.find? (fun kv => kv.1 == k)
      (List.map (fun kv => if kv.1 == k then (k, e) else kv) st) = some (k, e) := by
  induction st with
  | nil => simp at hany
  | cons a t ih =>
    by_cases ha : (a.1 == k) = true
    · simp only [List.map_cons, if_pos ha]
      exact List.find?_cons_of_pos _ (by simp)
    · simp only [List.map_cons, if_neg ha]
      rw [List.find?_cons_of_neg _ (by simp_all)]
      apply ih
      simp only [List.any_cons, Bool.eq_false_iff.mpr ha, Bool.false_or] at hany
      exact hany

/-- After `setItem`, looking the key up finds exactly the new entry. -/
theorem find?_setItem_self {α : Type} (st : LocalStorage α) (k : String) (e : PCEntry α) :
    List.find? (fun kv => kv.1 == k) (lsSetItem st k e) = some (k, e) := by
  unfold lsSetItem
  by_cases hany : List.any st (fun kv => kv.1 == k) = true
  · rw [if_pos hany]
    exact find?_map_replace st k e hany
  · rw [if_neg hany, List.find?_append, List.find?_eq_none.mpr, Option.none_or]
    · exact List.find?_cons_of_pos _ (by simp)
    · intro x hx hpx
      simp only [List.any_eq_true] at hany
      exact hany ⟨x, hx, hpx⟩

/-- The first `q`-match survives any filter it satisfies. -/
theorem find?_filter_of_pred {β : Type} {l : List β} {p q : β → Bool} {x : β}
    (hfind : l.find? q = some x) (hp : p x = true) :
    (l.filter p).find? q = some x := by
  induction l with
  | nil => simp at hfind
  | cons a t ih =>
    by_cases hqa : q a = true
    · rw [List.find?_cons_of_pos _ hqa] at hfind
      cases hfind
      rw [List.filter_cons_of_pos hp]
      exact List.find?_cons_of_pos _ hqa
    · rw [List.find?_cons_of_neg _ (by simp_all)] at hfind
      by_cases hpa : p a = true
      · rw [List.filter_cons_of_pos hpa, List.find?_cons_of_neg _ (by simp_all)]
        exact ih hfind
      · rw [List.filter_cons_of_neg (by simp_all)]
        exact ih hfind

/-- With at most `maxSize` valid entries, the non-aggressive cleanup only
purges the expired prefixed entries. -/
theorem pcCleanup_of_within_cap {α : Type} {now : Int} {st : LocalStorage α}
    (hcap : (validEntriesOf now st).length ≤ maxSize) :
    pcCleanup now false st
      = List.filter (fun kv => !(isPrefixed kv.1 && decide (now > kv.2.expiresAt))) st := by
  unfold pcCleanup
  rw [if_neg]
  simp only [Bool.false_or, decide_eq_true_eq]
  omega

/-- Counterexample for C7's boundary clause "an entry is valid only while
`now < expiresAt`": at `now = expiresAt` exactly (`set` at time 0 with
`ttl = 10`, `get` at time 10) the entry is still returned, because `get`
only invalidates when `now > expiresAt`. -/
theorem pc_get_boundary_counterexample :
    (pcGet (pcSet ([] : LocalStorage Nat) "k" 5 10 0 none) "k" 10).1 = some ⟨5, 0, none, 0 + 10⟩
    ∧ ¬((10 : Int) < 0 + 10) := by
  constructor
  · decide
  · decide

/-- **C7 (amended).** An entry written by `set(key, data, T)` at time
`now` (with `T ≥ 0`, and the write staying within the 50-entry cap so no
capacity eviction touches it) is returned by `get(key)` at any time
`t ≤ now + T` — in particular strictly before `now + T` — and at any time
`t > now + T` `get` returns `null` and deletes the entry.  The entry is
valid while `now ≤ expiresAt` (not `now < expiresAt`: at the boundary
instant it is still served). -/
theorem pc_ttl_spec {α : Type} (st : LocalStorage α) (key : String) (d : α)
    (ttl now : Int) (etag : Option String)
    (httl : 0 ≤ ttl)
    (hcap : (validEntriesOf now (insertedStore st key d ttl now etag)).length ≤ maxSize) :
    (∀ t, t ≤ now + ttl →
        (pcGet (pcSet st key d ttl now etag) key t).1 = some ⟨d, now, etag, now + ttl⟩)
    ∧ ∀ t, now + ttl < t →
        pcGet (pcSet st key d ttl now etag) key t
          = (none, lsRemoveItem (pcSet st key d ttl now etag) (cacheKeyOf key)) := by
  have hnotexp : (!(isPrefixed (cacheKeyOf key)
      && decide (now > (⟨d, now, etag, now + ttl⟩ : PCEntry α).expiresAt))) = true := by
    have hle : ¬(now > now + ttl) := by omega
    simp [hle]
  have hfind : ((insertedStore st key d ttl now etag).filter
        (fun kv => !(isPrefixed kv.1 && decide (now > kv.2.expiresAt)))).find?
        (fun kv => kv.1 == cacheKeyOf key)
      = some (cacheKeyOf key, ⟨d, now, etag, now + ttl⟩) :=
    find?_filter_of_pred (find?_setItem_self st (cacheKeyOf key) _) hnotexp
  have hlookup : lsGetItem (pcSet st key d ttl now etag) (cacheKeyOf key)
      = some ⟨d, now, etag, now + ttl⟩ := by
    unfold pcSet
    rw [pcCleanup_of_within_cap hcap]
    unfold lsGetItem
    rw [hfind]
    rfl
  have hget : ∀ t, pcGet (pcSet st key d ttl now etag) key t
      = if t > now + ttl
        then (none, lsRemoveItem (pcSet st key d ttl now etag) (cacheKeyOf key))
        else (some ⟨d, now, etag, now + ttl⟩, pcSet st key d ttl now etag) := by
    intro t
    unfold pcGet
    rw [hlookup]
  constructor
  · intro t ht
    rw [hget t, if_neg (by omega)]
  · intro t ht
    rw [hget t, if_pos (by omega)]

/-- Witness for C7: a concrete entry written at time 0 with `ttl = 10` is
returned unchanged at time 3. -/
theorem pc_ttl_spec_witness :
    (pcGet (pcSet ([] : LocalStorage Nat) "k" 5 10 0 none) "k" 3).1 = some ⟨5, 0, none, 0 + 10⟩ :=
  (pc_ttl_spec [] "k" 5 10 0 none (by decide) (by decide)).1 3 (by decide)

/-! ## C8: cleanup caps valid entries at 50 with FIFO-by-write eviction -/

theorem decide_le_eq_not_decide_gt (now x : Int) :
    decide (now ≤ x) = !decide (now > x) := by
  by_cases h : now > x
  · simp [h, show ¬(now ≤ x) by omega]
  · simp [h, show now ≤ x by omega]

/-- Keeping the unexpired entries and then the prefixed ones is exactly
`validEntriesOf`. -/
theorem filter_prefixed_st1 {α : Type} (now : Int) (S : LocalStorage α) :
    (List.filter (fun kv => !(isPrefixed kv.1 && decide (now > kv.2.expiresAt))) S).filter
        (fun kv => isPrefixed kv.1)
      = validEntriesOf now S := by
  rw [List.filter_filter]
  unfold validEntriesOf
  apply List.filter_congr
  intro kv _
  cases hP : isPrefixed kv.1
  · simp [hP]
  · simp [hP, decide_le_eq_not_decide_gt now kv.2.expiresAt]

/-- The non-aggressive `cleanup` pass, over any store with no duplicate
keys: all expired prefixed entries are purged; the number of surviving
prefixed entries is `min (#valid) 50`; and every valid entry it evicts is
no younger (by write `timestamp`) than every surviving prefixed entry. -/
theorem pcCleanup_spec {α : Type} (now : Int) (S : LocalStorage α)
    (hWF : (S.map Prod.fst).Nodup) :
    (∀ kv ∈ pcCleanup now false S, isPrefixed kv.1 = true → ¬(now > kv.2.expiresAt))
    ∧ ((pcCleanup now false S).filter (fun kv => isPrefixed kv.1)).length
        = min (validEntriesOf now S).length maxSize
    ∧ (∀ kv ∈ validEntriesOf now S, kv ∉ pcCleanup now false S →
        ∀ kv' ∈ pcCleanup now false S, isPrefixed kv'.1 = true →
          kv.2.timestamp ≤ kv'.2.timestamp) := by
  have hmemValid : ∀ kv ∈ validEntriesOf now S,
      kv ∈ List.filter (fun kv => !(isPrefixed kv.1 && decide (now > kv.2.expiresAt))) S := by
    intro kv hkv
    rw [← filter_prefixed_st1 now S] at hkv
    exact (List.mem_filter.mp hkv).1
  have hexp : ∀ kv ∈ List.filter
      (fun kv => !(isPrefixed kv.1 && decide (now > kv.2.expiresAt))) S,
      isPrefixed kv.1 = true → ¬(now > kv.2.expiresAt) := by
    intro kv hkv hpref
    have := (List.mem_filter.mp hkv).2
    simp [hpref] at this
    omega
  by_cases hbr : (validEntriesOf now S).length > maxSize
  · -- eviction branch
    set st1 := List.filter (fun kv => !(isPrefixed kv.1 && decide (now > kv.2.expiresAt))) S
      with hst1
    set V := validEntriesOf now S with hVdef
    set SV := V.insertionSort tsLE with hSV
    set TR := V.length - maxSize with hTR
    set RK := (SV.take TR).map Prod.fst with hRK
    have hcl : pcCleanup now false S = st1.filter (fun kv => !(RK.contains kv.1)) := by
      simp only [pcCleanup, Bool.false_or]
      rw [if_pos (by simpa using hbr)]
      simp [hst1, hSV, hTR, hRK]
    have hperm : List.Perm SV V := List.perm_insertionSort tsLE V
    have hsorted : List.Sorted tsLE SV := List.sorted_insertionSort tsLE V
    have hVkeys : (V.map Prod.fst).Nodup := by
      rw [hVdef]
      exact List.Nodup.sublist ((List.filter_sublist S).map Prod.fst) hWF
    have hSVkeys : (SV.map Prod.fst).Nodup := ((hperm.map Prod.fst).nodup_iff).mpr hVkeys
    have hlenSV : SV.length = V.length := hperm.length_eq
    have hdisj : ∀ z, z ∈ (SV.take TR).map Prod.fst → z ∈ (SV.drop TR).map Prod.fst → False := by
      intro z hzT hzD
      have hn := hSVkeys
      rw [← List.take_append_drop TR SV, List.map_append] at hn
      exact (List.disjoint_of_nodup_append hn) hzT hzD
    have htake : (SV.take TR).filter (fun kv => !(RK.contains kv.1)) = [] := by
      rw [List.filter_eq_nil_iff]
      intro kv hkv
      have hmemk : kv.1 ∈ RK := by
        rw [hRK]
        exact List.mem_map_of_mem Prod.fst hkv
      simp [hmemk]
    have hdrop : (SV.drop TR).filter (fun kv => !(RK.contains kv.1)) = SV.drop TR := by
      rw [List.filter_eq_self]
      intro kv hkv
      cases hc : RK.contains kv.1 with
      | false => rfl
      | true =>
        exact absurd (List.mem_map_of_mem Prod.fst hkv)
          (fun hD => hdisj kv.1 (by rw [← hRK]; simpa using hc) hD)
    refine ⟨?_, ?_, ?_⟩
    · intro kv hkv hpref
      rw [hcl] at hkv
      exact hexp kv (List.mem_filter.mp hkv).1 hpref
    · rw [hcl, List.filter_comm, filter_prefixed_st1 now S, ← hVdef,
        ← (hperm.filter _).length_eq,
        show SV.filter (fun kv => !(RK.contains kv.1))
            = (SV.take TR).filter (fun kv => !(RK.contains kv.1))
              ++ (SV.drop TR).filter (fun kv => !(RK.contains kv.1)) from by
          rw [← List.filter_append, List.take_append_drop],
        htake, hdrop, List.nil_append, List.length_drop, hlenSV,
        min_eq_right (by omega)]
      omega
    · intro kv hkvV hkvOut kv' hkv' hpref'
      -- kv is among the first (oldest) `TR` entries of the sorted valid list
      have hkvRK : kv.1 ∈ RK := by
        by_contra hno
        apply hkvOut
        rw [hcl]
        refine List.mem_filter.mpr ⟨hmemValid kv hkvV, ?_⟩
        cases hc : RK.contains kv.1 with
        | false => rfl
        | true => exact absurd (by simpa using hc) hno
      have hkvSV : kv ∈ SV := hperm.mem_iff.mpr hkvV
      have hkvTake : kv ∈ SV.take TR := by
        rw [← List.take_append_drop TR SV] at hkvSV
        rcases List.mem_append.mp hkvSV with h | h
        · exact h
        · exact absurd (List.mem_map_of_mem Prod.fst h)
            (fun hD => hdisj kv.1 hkvRK hD)
      -- kv' is among the kept (younger) part
      rw [hcl] at hkv'
      obtain ⟨hkv'st1, hkv'keep⟩ := List.mem_filter.mp hkv'
      have hkv'V : kv' ∈ V := by
        rw [hVdef, ← filter_prefixed_st1 now S, ← hst1]
        exact List.mem_filter.mpr ⟨hkv'st1, hpref'⟩
      have hkv'SV : kv' ∈ SV := hperm.mem_iff.mpr hkv'V
      have hkv'Drop : kv' ∈ SV.drop TR := by
        rw [← List.take_append_drop TR SV] at hkv'SV
        rcases List.mem_append.mp hkv'SV with h | h
        · exfalso
          have hmem' : kv'.1 ∈ RK := by
            rw [hRK]
            exact List.mem_map_of_mem Prod.fst h
          simp [hmem'] at hkv'keep
        · exact h
      exact hsorted.rel_of_mem_take_of_mem_drop hkvTake hkv'Drop
  · -- no eviction
    have hcl : pcCleanup now false S
        = List.filter (fun kv => !(isPrefixed kv.1 && decide (now > kv.2.expiresAt))) S :=
      pcCleanup_of_within_cap (by omega)
    refine ⟨?_, ?_, ?_⟩
    · intro kv hkv hpref
      rw [hcl] at hkv
      exact hexp kv hkv hpref
    · rw [hcl, filter_prefixed_st1 now S, min_eq_left (by omega)]
    · intro kv hkvV hkvOut kv' _ _
      exact absurd (hcl ▸ hmemValid kv hkvV) hkvOut

/-- **C8.** After every `set`, cleanup leaves no expired prefixed entry;
at most 50 valid entries remain — exactly 50 whenever the write pushed
the valid count beyond the cap — and eviction is strictly FIFO by write
time: every valid entry that was evicted has a write `timestamp` no later
than that of every surviving cache entry (last access plays no role:
`get` never touches `timestamp`). -/
theorem pc_eviction_spec {α : Type} (st : LocalStorage α) (key : String) (d : α)
    (ttl now : Int) (etag : Option String)
    (hWF : ((insertedStore st key d ttl now etag).map Prod.fst).Nodup) :
    (∀ kv ∈ pcSet st key d ttl now etag, isPrefixed kv.1 = true → ¬(now > kv.2.expiresAt))
    ∧ ((pcSet st key d ttl now etag).filter (fun kv => isPrefixed kv.1)).length
        = min (validEntriesOf now (insertedStore st key d ttl now etag)).length maxSize
    ∧ (∀ kv ∈ validEntriesOf now (insertedStore st key d ttl now etag),
        kv ∉ pcSet st key d ttl now etag →
        ∀ kv' ∈ pcSet st key d ttl now etag, isPrefixed kv'.1 = true →
          kv.2.timestamp ≤ kv'.2.timestamp) :=
  pcCleanup_spec now (insertedStore st key d ttl now etag) hWF

/-- Witness for C8: a single write into an empty store leaves exactly
`min 1 50 = 1` valid prefixed entry. -/
theorem pc_eviction_spec_witness :
    ((pcSet ([] : LocalStorage Nat) "k" 5 10 0 none).filter (fun kv => isPrefixed kv.1)).length
      = min (validEntriesOf 0 (insertedStore ([] : LocalStorage Nat) "k" 5 10 0 none)).length
          maxSize :=
  (pc_eviction_spec ([] : LocalStorage Nat) "k" 5 10 0 none (by decide)).2.1

end FeedWatcher
